import Mathlib

/-!
Shallow embedding of the core of the `node-http-proxy` library
(`lib/common.ts`, `lib/proxyServer.ts`, `lib/passes/*`) in Lean 4,
together with theorems checking the natural-language specification
against the code.

JavaScript strings are modelled as `List Char` (with `String` wrappers
at the interface), JavaScript objects holding headers as association
lists, and `undefined`/`null` as `Option`.  JavaScript truthiness is
made explicit wherever the source relies on it (`0`, `""`, `null`,
`undefined` are falsy).
-/

namespace NodeHttpProxy

/-! ## JavaScript string primitives -/

/-- The whitespace class of JavaScript's regex `\s` (ASCII part plus
NBSP and BOM; the source only ever meets ASCII whitespace here). -/
def isJsSpace (c : Char) : Bool :=
  c = ' ' || c = '\t' || c = '\n' || c = '\r' ||
  c = '\x0b' || c = '\x0c' || c = ' ' || c = '﻿'

/-- Case-insensitive character comparison, as performed by a regex with
the `i` flag on ASCII input. -/
def ciEq (a b : Char) : Bool := a.toLower = b.toLower

/-- Strip `pat` from the front of `l`, comparing case-insensitively;
`none` when `pat` is not a (case-insensitive) prefix. -/
def ciStrip : List Char → List Char → Option (List Char)
  | [], l => some l
  | _ :: _, [] => none
  | p :: ps, c :: cs => if ciEq p c then ciStrip ps cs else none

/-- Whether `pat` occurs as a contiguous substring of `l`
(JavaScript `String.prototype.includes` / an unanchored regex literal). -/
def strContains (pat : List Char) : List Char → Bool
  | [] => pat.isPrefixOf []
  | c :: cs => pat.isPrefixOf (c :: cs) || strContains pat cs

/-! ## `lib/common.ts`: `upgradeHeader` and `isSSL` -/

/-- Tail of the regex `/(^|,)\s*upgrade\s*($|,)/i` after its `(^|,)`
anchor: optional whitespace, the word `upgrade` case-insensitively,
optional whitespace, then end of string or a comma. -/
def upgradeTokenAt (l : List Char) : Bool :=
  match ciStrip "upgrade".toList (l.dropWhile isJsSpace) with
  | none => false
  | some rest =>
    let r := rest.dropWhile isJsSpace
    r.isEmpty || r.head? = some ','

/-- Search for a comma followed by the tail of the upgrade regex. -/
def upgradeTokenAfterComma : List Char → Bool
  | [] => false
  | c :: cs => (c = ',' && upgradeTokenAt cs) || upgradeTokenAfterComma cs

/-- Evaluation of `upgradeHeader.test s` for
`const upgradeHeader = /(^|,)\s*upgrade\s*($|,)/i` in `lib/common.ts`:
the header contains an `upgrade` token delimited by commas or the ends
of the string. -/
def upgradeHeaderTest (s : String) : Bool :=
  upgradeTokenAt s.toList || upgradeTokenAfterComma s.toList

/-- Evaluation of `isSSL.test s` for `export const isSSL = /^https|wss/` in
`lib/common.ts`: the string starts with `https`, or contains `wss`
anywhere (the alternation binds weaker than the anchor). -/
def isSSLTest (s : String) : Bool :=
  "https".toList.isPrefixOf s.toList || strContains "wss".toList s.toList

/-- JavaScript string coercion of an `Option String` (an `undefined`
value prints as `"undefined"` when fed to `RegExp.prototype.test`). -/
def jsOptToString : Option String → String
  | some s => s
  | none => "undefined"

/-! ## `lib/common.ts`: `getPort` -/

/-- First match of the regex `/:(\d+)/` over a string, returning the
captured maximal digit run: scan left to right for a colon immediately
followed by at least one digit. -/
def firstColonDigits : List Char → Option (List Char)
  | [] => none
  | c :: cs =>
    if c = ':' && (cs.head?.map Char.isDigit).getD false then
      some (cs.takeWhile Char.isDigit)
    else
      firstColonDigits cs

/-- Whether the regex `/:(\d+)/` matches anywhere: some colon is
immediately followed by a digit. -/
def hasColonDigit : List Char → Bool
  | [] => false
  | c :: cs =>
    (c = ':' && (cs.head?.map Char.isDigit).getD false) || hasColonDigit cs

/-- Embedding of `getPort(req)` from `lib/common.ts`: the digits of the first
`:(\d+)` match in the `Host` header, else `'443'`/`'80'` by encryption.
A missing or empty `Host` header is falsy and skips the match. -/
def getPort (host : Option String) (encrypted : Bool) : String :=
  let res : Option (List Char) :=
    match host with
    | some h => if h = "" then none else firstColonDigits h.toList
    | none => none
  match res with
  | some d => String.mk d
  | none => if encrypted then "443" else "80"

/-! ## Headers as a JavaScript-object model

Node lowercases incoming header names, so lookups in the source use
exact (lowercase) keys.  A JavaScript object is an association list
with unique keys; assignment replaces in place, spread merges
right-biased. -/

abbrev HeadersMap := List (String × String)

/-- Property read `obj[k]` (`undefined` ↦ `none`): the value of the
(unique) binding of `k`. -/
def hget : HeadersMap → String → Option String
  | [], _ => none
  | e :: t, k => if e.1 = k then some e.2 else hget t k

/-- Property write `obj[k] = v`: replace the first binding of `k` or
append a new one. -/
def hset (m : HeadersMap) (k v : String) : HeadersMap :=
  match m with
  | [] => [(k, v)]
  | e :: t => if e.1 = k then (k, v) :: t else e :: hset t k v

/-- Spread merge `{...a, ...b}` (bindings of `b` win). -/
def hmerge (a b : HeadersMap) : HeadersMap :=
  b.foldl (fun acc e => hset acc e.1 e.2) a

/-- Assignment of `undefined` to a property: reads of `k` yield
`undefined` afterwards. -/
def hdel (m : HeadersMap) (k : String) : HeadersMap :=
  m.filter (fun e => e.1 ≠ k)

/-! ## `lib/common.ts`: `urlJoin` -/

/-- JavaScript `s.split(c)` presented as first segment plus the list of
remaining segments (the result of `split` is always non-empty). -/
def splitOnChar (c : Char) : List Char → List Char × List (List Char)
  | [] => ([], [])
  | x :: xs =>
    let r := splitOnChar c xs
    if x = c then ([], r.1 :: r.2) else (x :: r.1, r.2)

/-- JavaScript `segs.join(c)`. -/
def joinAll (c : Char) : List (List Char) → List Char
  | [] => []
  | [x] => x
  | x :: y :: t => x ++ c :: joinAll c (y :: t)

/-- The global replace `.replace(/\/+/g, '/')`: collapse every run of
slashes to a single slash.  The flag records whether the previous
character was a slash. -/
def collapseSlashesAux : Bool → List Char → List Char
  | _, [] => []
  | prev, c :: cs =>
    if c = '/' then
      if prev then collapseSlashesAux true cs
      else '/' :: collapseSlashesAux true cs
    else c :: collapseSlashesAux false cs

def collapseSlashes (l : List Char) : List Char := collapseSlashesAux false l

/-- JavaScript `s.replace(pat, repl)` with a plain-string pattern:
replace only the first occurrence, left to right. -/
def replaceFirstStr (pat repl : List Char) : List Char → List Char
  | [] => if pat.isPrefixOf ([] : List Char) then repl else []
  | c :: cs =>
    if pat.isPrefixOf (c :: cs) then repl ++ (c :: cs).drop pat.length
    else c :: replaceFirstStr pat repl cs

/-- Embedding of `urlJoin` from `lib/common.ts`: split the last argument at `?`,
join the non-empty segments with `/`, collapse slash runs, restore the
scheme double slash (first occurrence only, as JavaScript string
`replace` does), and re-attach the query segments with `?`.
The source is never called with zero arguments; that case is mapped to
the empty string. -/
def urlJoin (args : List String) : String :=
  match args.getLast? with
  | none => ""
  | some last =>
    let lastSegs := splitOnChar '?' last.toList
    let args2 : List (List Char) :=
      (args.dropLast.map String.toList) ++ [lastSegs.1]
    let joined :=
      replaceFirstStr "https:/".toList "https://".toList
        (replaceFirstStr "http:/".toList "http://".toList
          (collapseSlashes (joinAll '/' (args2.filter (· ≠ [])))))
    String.mk (joinAll '?' (joined :: lastSegs.2))

/-! ## `lib/common.ts`: `setupOutgoing` and its collaborators -/

/-- Embedding of `hasPort` from `lib/common.ts`: the host string contains a colon. -/
def hasPort (host : String) : Bool := host.toList.contains ':'

/-- The `requires-port` npm module: whether `port` must be written
explicitly for `protocol` (i.e. is not that scheme's default). -/
def requiresPort (port : Nat) (protocol : Option String) : Bool :=
  let proto := ((jsOptToString <| protocol.orElse fun _ => some "").toList.takeWhile
    (· ≠ ':'))
  if port = 0 then false
  else if proto = "http".toList || proto = "ws".toList then port ≠ 80
  else if proto = "https".toList || proto = "wss".toList then port ≠ 443
  else if proto = "ftp".toList then port ≠ 21
  else if proto = "gopher".toList then port ≠ 70
  else if proto = "file".toList then false
  else port ≠ 0

/-- Truthiness of an optional JavaScript string (`undefined` and `""`
are falsy). -/
def jsTruthyStr (o : Option String) : Bool := o.getD "" ≠ ""

/-- Node's legacy `url.parse(u).path || ''` (`pathname + search`),
modelled for the request-target shapes a server hands the proxy:
everything before the fragment; for an absolute URL the scheme and
authority are dropped first. -/
def urlParsePath (s : String) : String :=
  let l := s.toList.takeWhile (· ≠ '#')
  if strContains "://".toList l then
    let afterScheme := (l.drop ((l.takeWhile (· ≠ ':')).length + 3))
    String.mk (afterScheme.dropWhile (fun c => c ≠ '/' && c ≠ '?'))
  else String.mk l

/-- A structured target (Node legacy `Url` object or detailed target
record): the fields `setupOutgoing` reads. -/
structure TargetUrl where
  protocol : Option String := none
  host : Option String := none
  hostname : Option String := none
  port : Option Nat := none
  path : Option String := none
  socketPath : Option String := none
  pfx : Option String := none
  key : Option String := none
  passphrase : Option String := none
  cert : Option String := none
  ca : Option String := none
  ciphers : Option String := none
  secureProtocol : Option String := none
  deriving Repr, DecidableEq

/-- The resolved proxy options consumed by `setupOutgoing` and the
passes.  `agent` keeps only its truthiness; `sslCa` stands for
`options.ssl?.ca`. -/
structure ResolvedServerOptions where
  target : Option TargetUrl := none
  forward : Option TargetUrl := none
  method : Option String := none
  headers : Option HeadersMap := none
  auth : Option String := none
  sslCa : Option String := none
  secure : Option Bool := none
  agent : Bool := false
  localAddress : Option String := none
  prependPath : Bool := true
  toProxy : Bool := false
  ignorePath : Bool := false
  changeOrigin : Bool := false
  deriving Repr, DecidableEq

/-- The parts of the incoming request `setupOutgoing` reads. -/
structure Req where
  method : String := "GET"
  url : String := "/"
  headers : HeadersMap := []
  encrypted : Bool := false
  deriving Repr, DecidableEq

/-- The upstream request descriptor produced by `setupOutgoing`. -/
structure Outgoing where
  port : Nat
  host : Option String
  hostname : Option String
  socketPath : Option String
  pfx : Option String
  key : Option String
  passphrase : Option String
  cert : Option String
  ca : Option String
  ciphers : Option String
  secureProtocol : Option String
  method : String
  headers : HeadersMap
  auth : Option String
  rejectUnauthorized : Option Bool
  agent : Bool
  localAddress : Option String
  path : String
  deriving Repr, DecidableEq

/-- The `forward` parameter of `setupOutgoing` (`options[forward || 'target']`). -/
inductive Role | target | forward
  deriving Repr, DecidableEq

def roleTarget (o : ResolvedServerOptions) : Role → Option TargetUrl
  | .target => o.target
  | .forward => o.forward

/-- Embedding of `outgoing.port = options[...].port || (isSSL.test(...) ? 443 : 80)`:
a `0` port is falsy and falls back to the scheme default. -/
def outgoingPort (t : TargetUrl) : Nat :=
  match t.port with
  | some p =>
    if p ≠ 0 then p else if isSSLTest (jsOptToString t.protocol) then 443 else 80
  | none => if isSSLTest (jsOptToString t.protocol) then 443 else 80

/-- The `if (!outgoing.agent)` block of `setupOutgoing`: force
`connection: close` unless the existing header is a string passing the
`upgradeHeader` regex. -/
def connectionAdjust (agent : Bool) (h : HeadersMap) : HeadersMap :=
  if !agent then
    match hget h "connection" with
    | some s => if upgradeHeaderTest s then h else hset h "connection" "close"
    | none => hset h "connection" "close"
  else h

/-- The `if (options.changeOrigin)` block of `setupOutgoing`. -/
def changeOriginAdjust (co : Bool) (host : Option String) (port : Nat)
    (protocol : Option String) (h : HeadersMap) : HeadersMap :=
  if co then
    match host with
    | some hs =>
      if requiresPort port protocol && !hasPort hs then
        hset h "host" (hs ++ ":" ++ toString port)
      else if hs ≠ "" then hset h "host" hs
      else hdel h "host"
    | none =>
      -- `outgoing.host || undefined`; with `requiresPort` true the
      -- source would fail on `host.indexOf` before reaching this.
      hdel h "host"
  else h

/-- Embedding of `setupOutgoing(outgoing, options, req, forward?)` from
`lib/common.ts`.  Returns `none` when the selected role has no
structured target (the source would fail on the property read). -/
def setupOutgoing (o : ResolvedServerOptions) (req : Req) (role : Role) :
    Option Outgoing :=
  match roleTarget o role with
  | none => none
  | some t =>
    let port := outgoingPort t
    let method := if jsTruthyStr o.method then o.method.getD "" else req.method
    let headers1 := connectionAdjust o.agent (hmerge req.headers (o.headers.getD []))
    let targetPath := if o.prependPath then t.path.getD "" else ""
    let outgoingPath0 := if !o.toProxy then urlParsePath req.url else req.url
    let outgoingPath := if !o.ignorePath then outgoingPath0 else ""
    some
      { port := port
        host := t.host
        hostname := t.hostname
        socketPath := t.socketPath
        pfx := t.pfx
        key := t.key
        passphrase := t.passphrase
        cert := t.cert
        ca := if jsTruthyStr o.sslCa then o.sslCa else t.ca
        ciphers := t.ciphers
        secureProtocol := t.secureProtocol
        method := method
        headers := changeOriginAdjust o.changeOrigin t.host port t.protocol headers1
        auth := if jsTruthyStr o.auth then o.auth else none
        rejectUnauthorized :=
          if isSSLTest (jsOptToString t.protocol) then
            some (o.secure.getD true)
          else none
        agent := o.agent
        localAddress := o.localAddress
        path := urlJoin [targetPath, outgoingPath] }

/-! ## `lib/proxyServer.ts`: pass pipelines, `before` / `after`, `onError`

A pass is a named function; its effects on the request/response pair
are abstracted into a state type `σ`, and its return value into the
truthiness of the halt signal.  `runPasses` is the dispatch loop shared
by `createWebProxyHandler`, `createWebSocketProxyHandler` and the
`webOutgoingPasses` loop inside the `stream` pass: run passes in list
order and `break` on the first truthy return. -/

structure NamedPass (σ : Type) where
  name : String
  run : σ → Bool × σ

/-- The dispatch loop, instrumented with the list of executed pass
positions (`idx` is the position of the first pass of `passes` in the
whole pipeline). -/
def runPassesAux {σ : Type} : List (NamedPass σ) → σ → Nat → List Nat × σ
  | [], s, _ => ([], s)
  | p :: rest, s, idx =>
    let r := p.run s
    if r.1 then ([idx], r.2)
    else
      let q := runPassesAux rest r.2 (idx + 1)
      (idx :: q.1, q.2)

def runPasses {σ : Type} (passes : List (NamedPass σ)) (s : σ) : List Nat × σ :=
  runPassesAux passes s 0

/-- The state the pass at position `i` receives when no earlier pass
halted the pipeline. -/
def stateBefore {σ : Type} (passes : List (NamedPass σ)) (s : σ) (i : Nat) : σ :=
  (passes.take i).foldl (fun st p => (p.run st).2) s

/-- The index search shared by `ProxyServer.before` and
`ProxyServer.after`: `let i = -1; passes.forEach((v, idx) => { if
(v.name === passName) i = idx })` — the accumulator keeps the LAST
matching index. -/
def findPassIndexAux {σ : Type} (passName : String) :
    List (NamedPass σ) → Nat → Option Nat → Option Nat
  | [], _, acc => acc
  | p :: rest, idx, acc =>
    findPassIndexAux passName rest (idx + 1)
      (if p.name = passName then some idx else acc)

def findPassIndex {σ : Type} (passes : List (NamedPass σ)) (passName : String) :
    Option Nat :=
  findPassIndexAux passName passes 0 none

/-- Embedding of `ProxyServer.before(type, passName, callback)`: error when no pass
has the name, otherwise `passes.splice(i, 0, callback)` — insert at the
located index. -/
def beforeSplice {σ : Type} (passes : List (NamedPass σ)) (passName : String)
    (callback : NamedPass σ) : Except String (List (NamedPass σ)) :=
  match findPassIndex passes passName with
  | none => Except.error "No such pass"
  | some i => Except.ok (passes.insertIdx i callback)

/-- Embedding of `ProxyServer.after(type, passName, callback)`: error when no pass
has the name, otherwise `passes.splice(i++, 0, callback)`.  The
post-increment hands `splice` the PRE-increment value, so the insertion
index is `i`, exactly as in `before`. -/
def afterSplice {σ : Type} (passes : List (NamedPass σ)) (passName : String)
    (callback : NamedPass σ) : Except String (List (NamedPass σ)) :=
  match findPassIndex passes passName with
  | none => Except.error "No such pass"
  | some i => Except.ok (passes.insertIdx i callback)

/-- A pass that only records its own execution in the state and lets
the pipeline continue. -/
def recPass (n : String) : NamedPass (List String) :=
  { name := n, run := fun s => (false, s ++ [n]) }

/-- A pass that records its execution and halts the pipeline (returns
a truthy value). -/
def haltPass (n : String) : NamedPass (List String) :=
  { name := n, run := fun s => (true, s ++ [n]) }

/-- Embedding of `ProxyServer.onError`: rethrows exactly when the `error` listener
list has length one (only the default handler registered by the
constructor).  `true` means the error is rethrown. -/
def onError {α : Type} (errorListeners : List α) : Bool :=
  errorListeners.length == 1

/-! ## `lib/passes/ws-incoming.ts` (collocated web-outgoing variant):
`setRedirectHostRewrite` -/

/-- Decimal rendering `String(statusCode)` of a number.  `Nat.toDigits`
is fuel-structural, hence kernel-reducible. -/
def natToChars (n : Nat) : List Char := Nat.toDigits 10 n

/-- Evaluation of `redirectRegex.test s` for `/^201|30(1|2|7|8)$/`: the alternation
groups as `(^201)` or `(30(1|2|7|8)$)`, i.e. starts with `201`, or ends
with `301`, `302`, `307` or `308`. -/
def redirectRegexTest (s : List Char) : Bool :=
  "201".toList.isPrefixOf s ||
  "301".toList.isSuffixOf s || "302".toList.isSuffixOf s ||
  "307".toList.isSuffixOf s || "308".toList.isSuffixOf s

/-- The slice of a legacy Node `Url` object the redirect pass touches. -/
structure UrlObj where
  protocol : Option String := none
  slashes : Bool := false
  host : Option String := none
  rest : String := ""
  deriving Repr, DecidableEq

/-- Everything after the last `@` (legacy parser's auth split); the
whole list when there is no `@`. -/
def afterLastAt (l : List Char) : List Char :=
  (l.reverse.takeWhile (· ≠ '@')).reverse

def isSchemeChar (c : Char) : Bool :=
  c.isAlphanum || c = '+' || c = '-' || c = '.'

def lowerStr (l : List Char) : List Char := l.map Char.toLower

/-- Node's legacy `url.parse`, modelled for the URL shapes a `Location`
header carries: optional scheme (lowercased, kept with its colon),
`//`-marked authority whose user-info is dropped and whose hostname is
lowercased (port digits kept), and the remainder (`path`, query, hash)
untouched.  IPv6 bracket hosts are outside the model. -/
def urlParse (s : String) : UrlObj :=
  let l := s.toList
  let scheme := l.takeWhile isSchemeChar
  let hasScheme := scheme ≠ [] ∧ (l.drop scheme.length).head? = some ':'
  let protocol : Option String :=
    if hasScheme then some (String.mk (lowerStr scheme ++ [':'])) else none
  let rest1 := if hasScheme then l.drop (scheme.length + 1) else l
  if rest1.take 2 = ['/', '/'] then
    let rest2 := rest1.drop 2
    let authority := rest2.takeWhile (fun c => c ≠ '/' && c ≠ '?' && c ≠ '#')
    let afterAuth := rest2.drop authority.length
    let hostPart := afterLastAt authority
    let hostname := hostPart.takeWhile (· ≠ ':')
    let portPart := hostPart.drop hostname.length
    { protocol := protocol, slashes := true,
      host := some (String.mk (lowerStr hostname ++ portPart)),
      rest := String.mk afterAuth }
  else
    { protocol := protocol, slashes := false, host := none,
      rest := String.mk rest1 }

/-- Model of `url.format`: scheme, the `//` marker, host,
remainder. -/
def urlFormat (u : UrlObj) : String :=
  (u.protocol.getD "") ++ (if u.slashes then "//" else "") ++
    (u.host.getD "") ++ u.rest

/-- The options read by `setRedirectHostRewrite`. -/
structure RedirectOptions where
  hostRewrite : Option String := none
  autoRewrite : Bool := false
  protocolRewrite : Option String := none
  target : Option TargetUrl := none
  deriving Repr, DecidableEq

/-- Embedding of `setRedirectHostRewrite` from `lib/passes/ws-incoming.ts` (the
authoritative web-outgoing variant).  The result is the value assigned
to `proxyRes.headers['location']`, or `none` when the pass leaves the
header untouched.  `options.target` is already a legacy `Url` object,
so the `instanceof url.Url` branch returns it unparsed. -/
def setRedirectHostRewrite (o : RedirectOptions) (reqHost : Option String)
    (statusCode : Option Nat) (location : Option String) : Option String :=
  if (jsTruthyStr o.hostRewrite || o.autoRewrite || jsTruthyStr o.protocolRewrite)
      && o.target.isSome
      && jsTruthyStr location
      && statusCode.getD 0 ≠ 0
      && redirectRegexTest (natToChars (statusCode.getD 0)) then
    match o.target, location with
    | some t, some loc =>
      let u := urlParse loc
      if t.host ≠ u.host then none
      else
        let u1 :=
          if jsTruthyStr o.hostRewrite then { u with host := o.hostRewrite }
          else if o.autoRewrite then
            { u with host := if jsTruthyStr reqHost then reqHost else none }
          else u
        let u2 :=
          if jsTruthyStr o.protocolRewrite then
            { u1 with protocol := o.protocolRewrite }
          else u1
        some (urlFormat u2)
    | _, _ => none
  else none

/-! ## `lib/common.ts`: `rewriteCookieProperty` -/

/-- First-position match of the regex
`new RegExp('(;\\s*' + property + '=)([^;]+)', 'i')`: a semicolon,
whitespace, the property name case-insensitively, `=`, then one or more
non-semicolon characters.  Returns the group-1 text (with the original
casing of the property), the group-2 value, and the remainder of the
string after the match. -/
def matchClauseAt (prop : List Char) (l : List Char) :
    Option (List Char × List Char × List Char) :=
  match l with
  | [] => none
  | c :: rest =>
    if c = ';' then
      let ws := rest.takeWhile isJsSpace
      let rest1 := rest.dropWhile isJsSpace
      let propActual := rest1.take prop.length
      match ciStrip prop rest1 with
      | none => none
      | some rest2 =>
        match rest2 with
        | '=' :: rest3 =>
          let v := rest3.takeWhile (· ≠ ';')
          if v = [] then none
          else some (';' :: ws ++ propActual ++ ['='], v, rest3.drop v.length)
        | _ => none
    else none

/-- The scan-and-replace of `String.prototype.replace` with a
non-global regex: find the first match left to right, feed it to the
replacer from `rewriteCookieProperty` — `config[value]` exact match
first, `config['*']` fallback, keep the match when neither own key
exists; an empty (falsy) new value deletes the whole match. -/
def rewriteCookieChars (config : List (String × String)) (prop : List Char) :
    List Char → List Char
  | [] => []
  | c :: cs =>
    match matchClauseAt prop (c :: cs) with
    | some (pre, v, rest) =>
      (match hget config (String.mk v) with
       | some nv => if nv ≠ "" then pre ++ nv.toList ++ rest else rest
       | none =>
         match hget config "*" with
         | some nv => if nv ≠ "" then pre ++ nv.toList ++ rest else rest
         | none => pre ++ v ++ rest)
    | none => c :: rewriteCookieChars config prop cs

/-- Embedding of `rewriteCookieProperty` on a single header string. -/
def rewriteCookieProperty (header : String) (config : List (String × String))
    (prop : String) : String :=
  String.mk (rewriteCookieChars config prop.toList header.toList)

/-- Embedding of `rewriteCookieProperty` on a string-or-list header value: the
`Array.isArray` branch maps the rewrite over the elements. -/
def rewriteCookieHeaderValue (header : String ⊕ List String)
    (config : List (String × String)) (prop : String) : String ⊕ List String :=
  match header with
  | .inl s => .inl (rewriteCookieProperty s config prop)
  | .inr l => .inr (l.map (fun s => rewriteCookieProperty s config prop))

example : urlJoin ["", "x"] = "x" := by decide
example : urlJoin ["http://a", "/b"] = "http://a/b" := by decide
example : urlJoin ["/api/", "/x?a=1?b=2"] = "/api/x?a=1?b=2" := by decide

example :
    (setupOutgoing { target := some { protocol := some "https:" } }
      { } Role.target).map (·.port) = some 443 := by decide

example :
    (setupOutgoing { target := some { protocol := some "http:", port := some 0 } }
      { } Role.target).map (·.port) = some 80 := by decide

example :
    (setupOutgoing { target := some { protocol := some "http:", path := some "/api" } }
      { url := "/x?q=1" } Role.target).map (·.path) = some "/api/x?q=1" := by decide

example :
    rewriteCookieProperty "sid=1; Domain=example.com; Path=/" [("*", "")]
      "domain" = "sid=1; Path=/" := by decide
example :
    rewriteCookieProperty "sid=1; Domain=example.com" [("other.com", "x")]
      "domain" = "sid=1; Domain=example.com" := by decide
example :
    rewriteCookieProperty "sid=1; Domain=example.com" [("example.com", "new.org")]
      "domain" = "sid=1; Domain=new.org" := by decide
example :
    setRedirectHostRewrite
      { hostRewrite := some "ext.example.org", target := some { host := some "backend" } }
      none (some 301) (some "http://backend/p?q=1") =
      some "http://ext.example.org/p?q=1" := by decide
example :
    setRedirectHostRewrite
      { hostRewrite := some "ext.example.org", target := some { host := some "backend" } }
      none (some 200) (some "http://backend/p") = none := by decide
example :
    setRedirectHostRewrite
      { hostRewrite := some "ext.example.org", target := some { host := some "other" } }
      none (some 301) (some "http://backend/p") = none := by decide
example :
    (afterSplice [recPass "deleteLength", recPass "timeout", recPass "XHeaders",
        recPass "stream"] "timeout" (recPass "myPass")).map
      (fun ps => (runPasses ps ([] : List String)).2) =
      Except.ok ["deleteLength", "myPass", "timeout", "XHeaders", "stream"] := by
  rfl

example : getPort (some "[::1]:8080") false = "1" := by decide
example : getPort (some "example.com:8080") false = "8080" := by decide
example : getPort none true = "443" := by decide
example : upgradeHeaderTest "not upgrade" = false := by decide
example : upgradeHeaderTest "keep-alive, Upgrade" = true := by decide
example : upgradeHeaderTest "upgrade" = true := by decide
example : isSSLTest "https:" = true := by decide
example : isSSLTest "ws:" = false := by decide
example : isSSLTest "wss:" = true := by decide

/-! ## Association-map lemmas -/

theorem hget_hset_self (m : HeadersMap) (k v : String) :
    hget (hset m k v) k = some v := by
  induction m with
  | nil => simp [hget, hset]
  | cons e t ih =>
    by_cases h : e.1 = k
    · simp [hset, h, hget]
    · simpa [hset, h, hget] using ih

theorem hget_hset_ne (m : HeadersMap) (k k' v : String) (h : k' ≠ k) :
    hget (hset m k' v) k = hget m k := by
  induction m with
  | nil => simp [hget, hset, h]
  | cons e t ih =>
    by_cases he : e.1 = k'
    · simp [hset, he, hget, h]
    · by_cases hek : e.1 = k
      · simp [hset, he, hget, hek, Ne.symm h]
      · simpa [hset, he, hget, hek] using ih

theorem hget_hdel_ne (m : HeadersMap) (k k' : String) (h : k' ≠ k) :
    hget (hdel m k') k = hget m k := by
  induction m with
  | nil => simp [hget, hdel]
  | cons e t ih =>
    by_cases he : e.1 = k'
    · simpa [hdel, he, hget, h, List.filter_cons] using ih
    · by_cases hek : e.1 = k
      · simp [hdel, he, hget, hek, List.filter_cons, Ne.symm h]
      · simpa [hdel, he, hget, hek, List.filter_cons] using ih

theorem hget_changeOriginAdjust_connection (co : Bool) (host : Option String)
    (port : Nat) (protocol : Option String) (h : HeadersMap) :
    hget (changeOriginAdjust co host port protocol h) "connection" =
      hget h "connection" := by
  have hne : ("host" : String) ≠ "connection" := by decide
  unfold changeOriginAdjust
  repeat' split
  all_goals
    simp [hget_hset_ne _ _ _ _ hne, hget_hdel_ne _ _ _ hne]

/-! ## Pipeline lemmas -/

theorem runPassesAux_shift {σ : Type} (passes : List (NamedPass σ)) (s : σ)
    (idx : Nat) :
    runPassesAux passes s idx =
      ((runPassesAux passes s 0).1.map (· + idx), (runPassesAux passes s 0).2) := by
  induction passes generalizing s idx with
  | nil => simp [runPassesAux]
  | cons p rest ih =>
    simp only [runPassesAux]
    by_cases h : (p.run s).1
    · simp [h]
    · have hc : ∀ x : Nat, x + 1 + idx = x + (idx + 1) := fun x => by omega
      simp [h, ih ((p.run s).2) (idx + 1), ih ((p.run s).2) 1,
        List.map_map, Function.comp_def, hc]

theorem stateBefore_cons {σ : Type} (p : NamedPass σ) (rest : List (NamedPass σ))
    (s : σ) (i : Nat) :
    stateBefore (p :: rest) s (i + 1) = stateBefore rest (p.run s).2 i := by
  simp [stateBefore, List.take_succ_cons]

theorem findPassIndexAux_shift {σ : Type} (nm : String)
    (passes : List (NamedPass σ)) : ∀ (idx : Nat) (acc : Option Nat),
    findPassIndexAux nm passes idx acc =
      (match findPassIndexAux nm passes 0 none with
       | some k => some (idx + k)
       | none => acc) := by
  induction passes with
  | nil => intro idx acc; simp [findPassIndexAux]
  | cons p rest ih =>
    intro idx acc
    simp only [findPassIndexAux]
    rw [ih (idx + 1), ih 1]
    by_cases h : p.name = nm
    · simp only [h, if_pos rfl]
      cases hfp : findPassIndexAux nm rest 0 none with
      | none => simp
      | some k => simp; omega
    · simp only [if_neg h]
      cases hfp : findPassIndexAux nm rest 0 none with
      | none => simp
      | some k => simp; omega

theorem findPassIndex_cons {σ : Type} (p : NamedPass σ)
    (rest : List (NamedPass σ)) (nm : String) :
    findPassIndex (p :: rest) nm =
      (match findPassIndex rest nm with
       | some k => some (k + 1)
       | none => if p.name = nm then some 0 else none) := by
  show findPassIndexAux nm (p :: rest) 0 none = _
  simp only [findPassIndexAux]
  rw [findPassIndexAux_shift]
  show _ = (match findPassIndexAux nm rest 0 none with
       | some k => some (k + 1)
       | none => if p.name = nm then some 0 else none)
  cases hfp : findPassIndexAux nm rest 0 none with
  | none => simp
  | some k => simp; omega

theorem findPassIndex_none {σ : Type} (passes : List (NamedPass σ)) (nm : String)
    (h : ∀ j (hj : j < passes.length), (passes.get ⟨j, hj⟩).name ≠ nm) :
    findPassIndex passes nm = none := by
  induction passes with
  | nil => rfl
  | cons p rest ih =>
    rw [findPassIndex_cons]
    have hrest : findPassIndex rest nm = none := by
      refine ih (fun j hj => ?_)
      have := h (j + 1) (by simpa using Nat.succ_lt_succ hj)
      simpa using this
    have hp : p.name ≠ nm := by
      have := h 0 (by simp)
      simpa using this
    simp [hrest, hp]

theorem findPassIndex_last {σ : Type} (passes : List (NamedPass σ)) (nm : String)
    (i : Nat) (hi : i < passes.length)
    (hname : (passes.get ⟨i, hi⟩).name = nm)
    (hlast : ∀ j (hj : j < passes.length), i < j →
      (passes.get ⟨j, hj⟩).name ≠ nm) :
    findPassIndex passes nm = some i := by
  induction passes generalizing i with
  | nil => exact absurd hi (by simp)
  | cons p rest ih =>
    rw [findPassIndex_cons]
    cases i with
    | zero =>
      have hrest : findPassIndex rest nm = none := by
        refine findPassIndex_none rest nm (fun j hj => ?_)
        have := hlast (j + 1) (by simpa using Nat.succ_lt_succ hj) (by omega)
        simpa using this
      simp only [hrest]
      simpa using hname
    | succ i' =>
      have hi' : i' < rest.length := by simpa using hi
      have hrest : findPassIndex rest nm = some i' := by
        refine ih i' hi' (by simpa using hname) (fun j hj hij => ?_)
        have := hlast (j + 1) (by simpa using Nat.succ_lt_succ hj) (by omega)
        simpa using this
      simp [hrest]

/-!
## C1. `after(type, name, fn)`
-/

/-- C1 (code bug): on the web pipeline
`[deleteLength, timeout, XHeaders, stream]`, the call
`after('web', 'timeout', myPass)` is claimed to splice `myPass` so
that it executes immediately after `timeout` on every dispatch.  The
source computes the index of `timeout` and then calls
`passes.splice(i++, 0, callback)`, whose post-increment passes the old
`i`: the callback lands at the index of the named pass, so on dispatch
it executes immediately BEFORE `timeout`.  The error branch of the
claim does hold: an unknown name yields the `'No such pass'` error and
no pipeline is produced. -/
theorem after_splices_before_named_pass :
    (afterSplice [recPass "deleteLength", recPass "timeout", recPass "XHeaders",
        recPass "stream"] "timeout" (recPass "myPass")).map
      (fun ps => (runPasses ps ([] : List String)).2) =
      Except.ok ["deleteLength", "myPass", "timeout", "XHeaders", "stream"] ∧
    (afterSplice [recPass "deleteLength", recPass "timeout", recPass "XHeaders",
        recPass "stream"] "nope" (recPass "myPass")).map
      (fun ps => ps.map (·.name)) = Except.error "No such pass" :=
  ⟨rfl, rfl⟩

/-!
## C8. default error handler rethrows exactly when it is the sole listener
-/

/-- C8: `ProxyServer.onError` rethrows the error when the `error`
listener list has length exactly one (only the default handler
registered at construction), and does not throw once additional
listeners are registered. -/
theorem onError_rethrows_iff_sole {α : Type} (d : α) (extra : List α) :
    onError [d] = true ∧ (extra ≠ [] → onError (d :: extra) = false) := by
  refine ⟨rfl, fun h => ?_⟩
  cases extra with
  | nil => exact absurd rfl h
  | cons e t => simp [onError]

/-- Witness for C8 at a concrete listener list. -/
theorem onError_rethrows_iff_sole_witness :
    onError ["default"] = true ∧ onError ["default", "extra"] = false :=
  ⟨(onError_rethrows_iff_sole "default" ["extra"]).1,
   (onError_rethrows_iff_sole "default" ["extra"]).2 (by decide)⟩

/-!
## C9. `before` / `after` target the last pass with the given name
-/

/-- C9: when a pipeline contains several passes with the same name,
the `forEach` in `before` and `after` leaves `i` at the LAST matching
index, so both splice relative to the last match, not the first. -/
theorem before_after_use_last_match {σ : Type} (passes : List (NamedPass σ))
    (nm : String) (f : NamedPass σ) (i : Nat) (hi : i < passes.length)
    (hname : (passes.get ⟨i, hi⟩).name = nm)
    (hlast : ∀ j (hj : j < passes.length), i < j →
      (passes.get ⟨j, hj⟩).name ≠ nm) :
    findPassIndex passes nm = some i ∧
    beforeSplice passes nm f = Except.ok (passes.insertIdx i f) ∧
    afterSplice passes nm f = Except.ok (passes.insertIdx i f) := by
  have hfp := findPassIndex_last passes nm i hi hname hlast
  exact ⟨hfp, by simp [beforeSplice, hfp], by simp [afterSplice, hfp]⟩

/-- Witness for C9: two passes named `a`; the splice point is index 2
(the last match), not 0. -/
theorem before_after_use_last_match_witness :
    findPassIndex [recPass "a", recPass "b", recPass "a"] "a" = some 2 ∧
    beforeSplice [recPass "a", recPass "b", recPass "a"] "a" (recPass "n") =
      Except.ok ([recPass "a", recPass "b", recPass "a"].insertIdx 2 (recPass "n")) ∧
    afterSplice [recPass "a", recPass "b", recPass "a"] "a" (recPass "n") =
      Except.ok ([recPass "a", recPass "b", recPass "a"].insertIdx 2 (recPass "n")) :=
  before_after_use_last_match [recPass "a", recPass "b", recPass "a"] "a"
    (recPass "n") 2 (by decide) rfl (fun j hj hij => by simp at hj; omega)

/-!
## C5. pipeline halting discipline
-/

/-- C5: in the dispatch loop shared by `web()`, `ws()` and the
`webOutgoingPasses` loop, if every pass before position `i` returns a
falsy value then pass `i` runs, and if pass `i` returns a truthy value
then no pass at a later position runs. -/
theorem pipeline_halting {σ : Type} (passes : List (NamedPass σ)) (s : σ)
    (i : Nat) (hi : i < passes.length)
    (hfalsy : ∀ j (hj : j < i),
      ((passes.get ⟨j, Nat.lt_trans hj hi⟩).run (stateBefore passes s j)).1 = false) :
    i ∈ (runPasses passes s).1 ∧
      (((passes.get ⟨i, hi⟩).run (stateBefore passes s i)).1 = true →
        ∀ k, k ∈ (runPasses passes s).1 → k ≤ i) := by
  induction passes generalizing s i with
  | nil => exact absurd hi (by simp)
  | cons p rest ih =>
    cases i with
    | zero =>
      constructor
      · show 0 ∈ (runPasses (p :: rest) s).1
        simp only [runPasses, runPassesAux]
        by_cases h : (p.run s).1 <;> simp [h]
      · intro htrue k hk
        have hp : (p.run s).1 = true := htrue
        simp only [runPasses, runPassesAux, hp, if_pos] at hk
        simp at hk
        omega
    | succ i' =>
      have h0 : (p.run s).1 = false := hfalsy 0 (Nat.succ_pos i')
      have hi' : i' < rest.length := by simpa using hi
      have hfalsy' : ∀ j (hj : j < i'),
          ((rest.get ⟨j, Nat.lt_trans hj hi'⟩).run
            (stateBefore rest (p.run s).2 j)).1 = false := by
        intro j hj
        have := hfalsy (j + 1) (Nat.succ_lt_succ hj)
        simpa [stateBefore_cons] using this
      obtain ⟨mem', halt'⟩ := ih (p.run s).2 i' hi' hfalsy'
      have hrun : runPasses (p :: rest) s =
          (0 :: (runPasses rest (p.run s).2).1.map (· + 1),
            (runPasses rest (p.run s).2).2) := by
        simp only [runPasses, runPassesAux, h0]
        rw [runPassesAux_shift rest (p.run s).2 1]
        simp
      constructor
      · rw [hrun]
        simp only [List.mem_cons, List.mem_map]
        exact Or.inr ⟨i', mem', rfl⟩
      · intro htrue k hk
        have htrue' : ((rest.get ⟨i', hi'⟩).run
            (stateBefore rest (p.run s).2 i')).1 = true := by
          simpa [stateBefore_cons] using htrue
        rw [hrun] at hk
        simp only [List.mem_cons, List.mem_map] at hk
        rcases hk with h1 | ⟨k', hk', rfl⟩
        · omega
        · have := halt' htrue' k' hk'
          omega

/-- Witness for C5: on `[recPass "a", haltPass "h", recPass "c"]` the
pass at position 1 runs (position 0 returned falsy) and, since it
returns truthy, no later position runs. -/
theorem pipeline_halting_witness :
    1 ∈ (runPasses [recPass "a", haltPass "h", recPass "c"] ([] : List String)).1 ∧
    ∀ k, k ∈ (runPasses [recPass "a", haltPass "h", recPass "c"]
      ([] : List String)).1 → k ≤ 1 := by
  have h := pipeline_halting [recPass "a", haltPass "h", recPass "c"]
    ([] : List String) 1 (by decide)
    (fun j hj => by
      have hj0 : j = 0 := by omega
      subst hj0
      rfl)
  exact ⟨h.1, h.2 rfl⟩

/-!
## C6. `setupOutgoing` port selection
-/

/-- C6 (amended): `outgoing.port` equals `options[role].port` when
that port is set and non-zero; when the port is unset — or set to the
falsy `0`, which the `||` fallback treats as unset — the port is 443
exactly when the protocol passes `isSSL` (`/^https|wss/`, matching
`https`/`wss` with or without the trailing colon), else 80. -/
theorem setupOutgoing_port_spec (o : ResolvedServerOptions) (req : Req)
    (role : Role) (t : TargetUrl) (ht : roleTarget o role = some t) :
    (∀ p, t.port = some p → p ≠ 0 →
        (setupOutgoing o req role).map (·.port) = some p) ∧
    ((t.port = none ∨ t.port = some 0) →
        (setupOutgoing o req role).map (·.port) =
          some (if isSSLTest (jsOptToString t.protocol) then 443 else 80)) ∧
    isSSLTest "https" = true ∧ isSSLTest "https:" = true ∧
    isSSLTest "wss" = true ∧ isSSLTest "wss:" = true ∧
    isSSLTest "http:" = false ∧ isSSLTest "ws:" = false := by
  have hmap : (setupOutgoing o req role).map (·.port) = some (outgoingPort t) := by
    simp [setupOutgoing, ht]
  refine ⟨?_, ?_, by decide, by decide, by decide, by decide, by decide, by decide⟩
  · intro p hp hp0
    rw [hmap]
    simp [outgoingPort, hp, hp0]
  · intro hp
    rw [hmap]
    rcases hp with hp | hp <;> simp [outgoingPort, hp]

/-- Witness for C6 at concrete targets: explicit port 8443 wins; `wss:`
with no port gives 443. -/
theorem setupOutgoing_port_spec_witness :
    (setupOutgoing { target := some { protocol := some "https:", port := some 8443 } }
      { } Role.target).map (·.port) = some 8443 ∧
    (setupOutgoing { target := some { protocol := some "wss:" } }
      { } Role.target).map (·.port) = some 443 := by
  have h1 := (setupOutgoing_port_spec
    { target := some { protocol := some "https:", port := some 8443 } }
    { } Role.target _ rfl).1 8443 rfl (by decide)
  have h2 := (setupOutgoing_port_spec
    { target := some { protocol := some "wss:" } }
    { } Role.target _ rfl).2.1 (Or.inl rfl)
  exact ⟨h1, h2.trans (by decide)⟩

/-- Counterexample for C6 as stated: a target with its port SET to `0`
(`port: number` per `ProxyTargetDetailed`) does not yield
`outgoing.port = 0`; the `||` fallback delivers the scheme default 80. -/
theorem setupOutgoing_port_zero_cex :
    (setupOutgoing { target := some { protocol := some "http:", port := some 0 } }
      { } Role.target).map (·.port) = some 80 ∧ ¬ ((80 : Nat) = 0) := by decide

/-!
## C2. `setupOutgoing` forces `connection: close` without an agent
-/

/-- C2: with a falsy `agent`, when the merged outgoing `connection`
header is missing or fails the `upgradeHeader` regex
`/(^|,)\s*upgrade\s*($|,)/i`, `setupOutgoing` sets it to `"close"`;
when the header passes the regex its value is preserved verbatim.  The
literal `"not upgrade"` fails the regex. -/
theorem setupOutgoing_connection_close (o : ResolvedServerOptions) (req : Req)
    (role : Role) (t : TargetUrl) (ht : roleTarget o role = some t)
    (hagent : o.agent = false) :
    (hget (hmerge req.headers (o.headers.getD [])) "connection" = none →
        (setupOutgoing o req role).map (fun og => hget og.headers "connection") =
          some (some "close")) ∧
    (∀ s, hget (hmerge req.headers (o.headers.getD [])) "connection" = some s →
        upgradeHeaderTest s = false →
        (setupOutgoing o req role).map (fun og => hget og.headers "connection") =
          some (some "close")) ∧
    (∀ s, hget (hmerge req.headers (o.headers.getD [])) "connection" = some s →
        upgradeHeaderTest s = true →
        (setupOutgoing o req role).map (fun og => hget og.headers "connection") =
          some (some s)) ∧
    upgradeHeaderTest "not upgrade" = false := by
  have hmap : (setupOutgoing o req role).map (fun og => hget og.headers "connection")
      = some (hget (connectionAdjust o.agent
          (hmerge req.headers (o.headers.getD []))) "connection") := by
    simp [setupOutgoing, ht, hget_changeOriginAdjust_connection]
  refine ⟨?_, ?_, ?_, by decide⟩
  · intro hc
    rw [hmap, hagent]
    simp [connectionAdjust, hc, hget_hset_self]
  · intro s hc hu
    rw [hmap, hagent]
    simp [connectionAdjust, hc, hu, hget_hset_self]
  · intro s hc hu
    rw [hmap, hagent]
    simp [connectionAdjust, hc, hu]

/-- Witness for C2: a `keep-alive` header is replaced by `close`; an
`Upgrade` header is preserved verbatim. -/
theorem setupOutgoing_connection_close_witness :
    (setupOutgoing { target := some { protocol := some "http:" } }
      { headers := [("connection", "keep-alive")] } Role.target).map
        (fun og => hget og.headers "connection") = some (some "close") ∧
    (setupOutgoing { target := some { protocol := some "http:" } }
      { headers := [("connection", "Upgrade")] } Role.target).map
        (fun og => hget og.headers "connection") = some (some "Upgrade") := by
  have h1 := (setupOutgoing_connection_close
    { target := some { protocol := some "http:" } }
    { headers := [("connection", "keep-alive")] } Role.target _ rfl rfl).2.1
    "keep-alive" (by decide) (by decide)
  have h2 := (setupOutgoing_connection_close
    { target := some { protocol := some "http:" } }
    { headers := [("connection", "Upgrade")] } Role.target _ rfl rfl).2.2.1
    "Upgrade" (by decide) (by decide)
  exact ⟨h1, h2⟩

/-!
## C10. `getPort` takes the digits after the first colon
-/

theorem takeWhile_app_eq {α : Type} (p : α → Bool) (d b : List α)
    (hd : ∀ c ∈ d, p c = true)
    (hb : ∀ c, b.head? = some c → p c = false) :
    (d ++ b).takeWhile p = d := by
  induction d with
  | nil =>
    cases b with
    | nil => rfl
    | cons x xs => simp [List.takeWhile_cons, hb x rfl]
  | cons x xs ih =>
    simp [List.takeWhile_cons, hd x (List.mem_cons_self x xs),
      ih (fun c hc => hd c (List.mem_cons_of_mem x hc))]

theorem firstColonDigits_not_found (l : List Char)
    (h : hasColonDigit l = false) : firstColonDigits l = none := by
  induction l with
  | nil => rfl
  | cons c cs ih =>
    simp only [hasColonDigit, Bool.or_eq_false_iff] at h
    simp [firstColonDigits, h.1, ih h.2]

theorem firstColonDigits_app (a d b : List Char)
    (ha : hasColonDigit a = false)
    (hd : (d.head?.map Char.isDigit).getD false = true) :
    firstColonDigits (a ++ ':' :: (d ++ b)) =
      some ((d ++ b).takeWhile Char.isDigit) := by
  induction a with
  | nil =>
    cases d with
    | nil => simp at hd
    | cons c0 d' =>
      have hc0 : c0.isDigit = true := by simpa using hd
      simp [firstColonDigits, List.cons_append, hc0]
  | cons c a' ih =>
    simp only [hasColonDigit, Bool.or_eq_false_iff] at ha
    have hguard : (decide (c = ':') &&
        (((a' ++ ':' :: (d ++ b)).head?.map Char.isDigit).getD false)) = false := by
      by_cases hc : c = ':'
      · have h2 : (Option.map Char.isDigit a'.head?).getD false = false := by
          rcases Bool.and_eq_false_iff.mp ha.1 with h1 | h1
          · simp at h1
            exact absurd hc h1
          · exact h1
        cases a' with
        | nil =>
          have : Char.isDigit ':' = false := by decide
          simp [this]
        | cons x xs =>
          simp only [List.head?_cons, Option.map_some, Option.getD_some] at h2
          simp only [List.cons_append, List.head?_cons, Option.map_some,
            Option.getD_some, Bool.and_eq_false_iff]
          exact Or.inr h2
      · simp [hc]
    simp only [List.cons_append, firstColonDigits]
    rw [if_neg (by simp_all)]
    simpa using ih ha.2

/-- C10: when the `Host` header decomposes as `a ++ ":" ++ d ++ b`
with no colon-digit occurrence in `a`, `d` a non-empty maximal digit
run (`b` does not start with a digit), `getPort` returns exactly `d`;
when no colon-digit occurrence exists at all (or the header is absent)
it falls back to `'443'`/`'80'` by encryption; and on the IPv6 literal
`[::1]:8080` the result is `'1'`, not `'8080'`. -/
theorem getPort_spec (a d b : List Char) (enc : Bool)
    (ha : hasColonDigit a = false)
    (hd : d ≠ [] ∧ ∀ c ∈ d, c.isDigit = true)
    (hb : ∀ c, b.head? = some c → c.isDigit = false) :
    getPort (some (String.mk (a ++ ':' :: (d ++ b)))) enc = String.mk d ∧
    (∀ h : List Char, hasColonDigit h = false →
      getPort (some (String.mk h)) enc = if enc then "443" else "80") ∧
    getPort none enc = (if enc then "443" else "80") ∧
    getPort (some "[::1]:8080") enc = "1" := by
  refine ⟨?_, ?_, rfl, by cases enc <;> decide⟩
  · have hne : ¬ (String.mk (a ++ ':' :: (d ++ b)) = "") := by
      simp [String.ext_iff]
    have hd0 : (d.head?.map Char.isDigit).getD false = true := by
      cases d with
      | nil => exact absurd rfl hd.1
      | cons c0 d' => simpa using hd.2 c0 (List.mem_cons_self c0 d')
    have h1 : firstColonDigits (a ++ ':' :: (d ++ b)) = some d := by
      rw [firstColonDigits_app a d b ha hd0,
        takeWhile_app_eq Char.isDigit d b hd.2 hb]
    simp [getPort, hne, h1]
  · intro h hh
    have hfc : firstColonDigits h = none := firstColonDigits_not_found h hh
    by_cases hne : String.mk h = ""
    · simp [getPort, hne]
    · simp [getPort, hne, hfc]

/-- Witness for C10: `Host: example.com:8080` yields `'8080'`; a
colon-free host falls back to `'80'`. -/
theorem getPort_spec_witness :
    getPort (some (String.mk ("example.com".toList ++ ':' :: ("8080".toList ++ []))))
      false = String.mk "8080".toList ∧
    getPort (some "nocolon") false = "80" := by
  have h := getPort_spec "example.com".toList "8080".toList [] false
    (by decide) ⟨by decide, by decide⟩ (fun c hc => by simp at hc)
  exact ⟨h.1, (h.2.1 "nocolon".toList (by decide)).trans (by decide)⟩

/-!
## C4. `urlJoin` never touches the query string
-/

theorem splitOnChar_not_mem (c : Char) (l : List Char) (h : c ∉ l) :
    splitOnChar c l = (l, []) := by
  induction l with
  | nil => rfl
  | cons x xs ih =>
    have hx : ¬ (x = c) := fun he => h (by rw [← he]; exact List.mem_cons_self x xs)
    simp [splitOnChar, hx, ih (fun hm => h (List.mem_cons_of_mem x hm))]

theorem splitOnChar_append (c : Char) (p q : List Char) (hp : c ∉ p) :
    splitOnChar c (p ++ c :: q) =
      (p, (splitOnChar c q).1 :: (splitOnChar c q).2) := by
  induction p with
  | nil => simp [splitOnChar]
  | cons x xs ih =>
    have hx : ¬ (x = c) := fun he => hp (by rw [← he]; exact List.mem_cons_self x xs)
    simp [splitOnChar, hx, ih (fun hm => hp (List.mem_cons_of_mem x hm))]

theorem joinAll_cons_head (c a : Char) (h : List Char) (t : List (List Char)) :
    joinAll c ((a :: h) :: t) = a :: joinAll c (h :: t) := by
  cases t <;> simp [joinAll]

theorem joinAll_splitOnChar (c : Char) (l : List Char) :
    joinAll c ((splitOnChar c l).1 :: (splitOnChar c l).2) = l := by
  induction l with
  | nil => rfl
  | cons x xs ih =>
    by_cases hx : x = c
    · subst hx
      simp only [splitOnChar, if_pos rfl]
      cases hsp : splitOnChar x xs with
      | mk r1 r2 =>
        rw [hsp] at ih
        simpa [joinAll] using ih
    · simp only [splitOnChar, if_neg hx]
      rw [joinAll_cons_head]
      exact congrArg (x :: ·) ih

/-- C4: `urlJoin` passes the query through untouched — with the
last segment split as `p ++ "?" ++ q` (first `?` at the boundary), the
result is the join computed on `p` alone with `"?" ++ q` re-attached
verbatim, `?`s inside `q` included; `urlJoin("", "x") = "x"`; and
`urlJoin("http://a", "/b") = "http://a/b"` with exactly two slashes
after the scheme. -/
theorem urlJoin_query_spec (init : List String) (p q : List Char)
    (hp : '?' ∉ p) :
    urlJoin (init ++ [String.mk (p ++ '?' :: q)]) =
      urlJoin (init ++ [String.mk p]) ++ "?" ++ String.mk q ∧
    urlJoin ["", "x"] = "x" ∧
    urlJoin ["http://a", "/b"] = "http://a/b" := by
  refine ⟨?_, by decide, by decide⟩
  have hL : (init ++ [String.mk (p ++ '?' :: q)]).getLast? =
      some (String.mk (p ++ '?' :: q)) := List.getLast?_concat _
  have hR : (init ++ [String.mk p]).getLast? = some (String.mk p) :=
    List.getLast?_concat _
  simp only [urlJoin, hL, hR, List.dropLast_concat]
  rw [show (String.mk (p ++ '?' :: q)).toList = p ++ '?' :: q from rfl,
    show (String.mk p).toList = p from rfl,
    splitOnChar_append '?' p q hp, splitOnChar_not_mem '?' p hp]
  dsimp only
  simp only [joinAll]
  rw [joinAll_splitOnChar]
  rw [String.ext_iff]
  simp [String.data_append, List.append_assoc]

/-- Witness for C4: the query `a=1?b=2` (with a second `?`) rides
through `urlJoin ["/api/", "/x?a=1?b=2"]` untouched. -/
theorem urlJoin_query_spec_witness :
    urlJoin (["/api/"] ++ [String.mk ("/x".toList ++ '?' :: "a=1?b=2".toList)]) =
      urlJoin (["/api/"] ++ [String.mk "/x".toList]) ++ "?" ++
        String.mk "a=1?b=2".toList ∧
    urlJoin ["", "x"] = "x" ∧
    urlJoin ["http://a", "/b"] = "http://a/b" :=
  urlJoin_query_spec ["/api/"] "/x".toList "a=1?b=2".toList (by decide)

/-!
## C7. `rewriteCookieProperty`
-/

theorem dropWhile_app_eq {α : Type} (p : α → Bool) (d b : List α)
    (hd : ∀ c ∈ d, p c = true)
    (hb : ∀ c, b.head? = some c → p c = false) :
    (d ++ b).dropWhile p = b := by
  induction d with
  | nil =>
    cases b with
    | nil => rfl
    | cons x xs => simp [List.dropWhile_cons, hb x rfl]
  | cons x xs ih =>
    simp [List.dropWhile_cons, hd x (List.mem_cons_self x xs),
      ih (fun c hc => hd c (List.mem_cons_of_mem x hc))]

theorem ciStrip_self_append (p rest : List Char) :
    ciStrip p (p ++ rest) = some rest := by
  induction p with
  | nil => rfl
  | cons c cs ih => simp [ciStrip, ciEq, ih]

theorem matchClauseAt_eval (prop w v b : List Char)
    (hw : ∀ c ∈ w, isJsSpace c = true)
    (hpne : prop ≠ [])
    (hpw : ∀ c, prop.head? = some c → isJsSpace c = false)
    (hv : v ≠ []) (hvs : ';' ∉ v)
    (hb : b = [] ∨ b.head? = some ';') :
    matchClauseAt prop (';' :: (w ++ prop ++ '=' :: (v ++ b))) =
      some (';' :: w ++ prop ++ ['='], v, b) := by
  have hphead : ∀ c, (prop ++ '=' :: (v ++ b)).head? = some c →
      isJsSpace c = false := by
    intro c hc
    cases prop with
    | nil => exact absurd rfl hpne
    | cons p0 ps =>
      simp only [List.cons_append, List.head?_cons, Option.some.injEq] at hc
      exact hc ▸ hpw p0 rfl
  have hws : (w ++ prop ++ '=' :: (v ++ b)).takeWhile isJsSpace = w := by
    rw [List.append_assoc]
    exact takeWhile_app_eq isJsSpace w _ hw hphead
  have hdr : (w ++ prop ++ '=' :: (v ++ b)).dropWhile isJsSpace =
      prop ++ '=' :: (v ++ b) := by
    rw [List.append_assoc]
    exact dropWhile_app_eq isJsSpace w _ hw hphead
  have hvtake : (v ++ b).takeWhile (fun c => decide (c ≠ ';')) = v := by
    refine takeWhile_app_eq _ v b (fun c hc => ?_) (fun c hc => ?_)
    · simp
      exact fun he => hvs (he ▸ hc)
    · rcases hb with hb | hb
      · subst hb; simp at hc
      · rw [hb] at hc
        simp at hc
        simp [← hc]
  simp only [matchClauseAt, if_pos rfl, hws, hdr]
  rw [show prop ++ '=' :: (v ++ b) = prop ++ ('=' :: (v ++ b)) from rfl,
    ciStrip_self_append prop ('=' :: (v ++ b)), List.take_left prop]
  simp only [hvtake, if_neg hv]
  simp [List.drop_left]

theorem rewriteCookieChars_append (config : List (String × String))
    (prop : List Char) (a l : List Char) (ha : ';' ∉ a) :
    rewriteCookieChars config prop (a ++ l) =
      a ++ rewriteCookieChars config prop l := by
  induction a with
  | nil => rfl
  | cons c cs ih =>
    have hc : ¬ (c = ';') := fun he => ha (by rw [← he]; exact List.mem_cons_self c cs)
    have hnone : matchClauseAt prop (c :: (cs ++ l)) = none := by
      simp [matchClauseAt, hc]
    simp only [List.cons_append, rewriteCookieChars, List.append_eq, hnone]
    exact congrArg (c :: ·) (ih (fun hm => ha (List.mem_cons_of_mem c hm)))

/-- C7: for a `Set-Cookie` header of the shape
`a ++ ";" ++ w ++ prop ++ "=" ++ v ++ b` (first clause of the property
after the `;`-free prefix `a`): a config that maps `*` to the empty
string and has no own key for the current value `v` deletes the whole
`;prop=v` clause; a config owning neither `v` nor `*` leaves the header
unchanged; and a list-valued header is rewritten elementwise. -/
theorem rewriteCookieProperty_spec (a w v b : List Char) (prop : String)
    (config : List (String × String))
    (ha : ';' ∉ a)
    (hw : ∀ c ∈ w, isJsSpace c = true)
    (hpne : prop.toList ≠ [])
    (hpw : ∀ c, prop.toList.head? = some c → isJsSpace c = false)
    (hv : v ≠ []) (hvs : ';' ∉ v)
    (hb : b = [] ∨ b.head? = some ';') :
    (hget config "*" = some "" → hget config (String.mk v) = none →
      rewriteCookieProperty
        (String.mk (a ++ ';' :: (w ++ prop.toList ++ '=' :: (v ++ b))))
        config prop = String.mk (a ++ b)) ∧
    (hget config "*" = none → hget config (String.mk v) = none →
      rewriteCookieProperty
        (String.mk (a ++ ';' :: (w ++ prop.toList ++ '=' :: (v ++ b))))
        config prop =
        String.mk (a ++ ';' :: (w ++ prop.toList ++ '=' :: (v ++ b)))) ∧
    (∀ hs : List String, rewriteCookieHeaderValue (Sum.inr hs) config prop =
      Sum.inr (hs.map (fun s => rewriteCookieProperty s config prop))) := by
  have hmatch := matchClauseAt_eval prop.toList w v b hw hpne hpw hv hvs hb
  have hcore : rewriteCookieChars config prop.toList
      (a ++ ';' :: (w ++ prop.toList ++ '=' :: (v ++ b))) =
      a ++ rewriteCookieChars config prop.toList
        (';' :: (w ++ prop.toList ++ '=' :: (v ++ b))) :=
    rewriteCookieChars_append config prop.toList a _ ha
  refine ⟨fun hstar hval => ?_, fun hstar hval => ?_, fun hs => rfl⟩
  · have : rewriteCookieChars config prop.toList
        (';' :: (w ++ prop.toList ++ '=' :: (v ++ b))) = b := by
      simp only [rewriteCookieChars, hmatch, hval, hstar]
      simp
    rw [show rewriteCookieProperty
        (String.mk (a ++ ';' :: (w ++ prop.toList ++ '=' :: (v ++ b))))
        config prop =
        String.mk (rewriteCookieChars config prop.toList
          (a ++ ';' :: (w ++ prop.toList ++ '=' :: (v ++ b)))) from rfl,
      hcore, this]
  · have : rewriteCookieChars config prop.toList
        (';' :: (w ++ prop.toList ++ '=' :: (v ++ b))) =
        ';' :: (w ++ prop.toList ++ '=' :: (v ++ b)) := by
      simp only [rewriteCookieChars, hmatch, hval, hstar]
      simp [List.append_assoc]
    rw [show rewriteCookieProperty
        (String.mk (a ++ ';' :: (w ++ prop.toList ++ '=' :: (v ++ b))))
        config prop =
        String.mk (rewriteCookieChars config prop.toList
          (a ++ ';' :: (w ++ prop.toList ++ '=' :: (v ++ b)))) from rfl,
      hcore, this]

/-- Witness for C7 on `sid=1; domain=example.com`: the wildcard-empty
config removes the clause; a config with only unrelated keys leaves the
header unchanged. -/
theorem rewriteCookieProperty_spec_witness :
    rewriteCookieProperty
      (String.mk ("sid=1".toList ++ ';' ::
        ([' '] ++ "domain".toList ++ '=' :: ("example.com".toList ++ []))))
      [("*", "")] "domain" = String.mk ("sid=1".toList ++ []) ∧
    rewriteCookieProperty
      (String.mk ("sid=1".toList ++ ';' ::
        ([' '] ++ "domain".toList ++ '=' :: ("example.com".toList ++ []))))
      [("other.com", "x")] "domain" =
      String.mk ("sid=1".toList ++ ';' ::
        ([' '] ++ "domain".toList ++ '=' :: ("example.com".toList ++ []))) := by
  have h1 := (rewriteCookieProperty_spec "sid=1".toList [' '] "example.com".toList
    [] "domain" [("*", "")] (by decide) (by decide) (by decide)
    (fun c hc => by simp at hc; subst hc; decide) (by decide) (by decide)
    (Or.inl rfl)).1 (by decide) (by decide)
  have h2 := (rewriteCookieProperty_spec "sid=1".toList [' '] "example.com".toList
    [] "domain" [("other.com", "x")] (by decide) (by decide) (by decide)
    (fun c hc => by simp at hc; subst hc; decide) (by decide) (by decide)
    (Or.inl rfl)).2.1 (by decide) (by decide)
  exact ⟨h1, h2⟩

/-!
## C3. `setRedirectHostRewrite` frame conditions
-/

set_option maxRecDepth 10000 in
theorem redirect_status_chk : ∀ n, n < 1000 → 100 ≤ n →
    (redirectRegexTest (natToChars n) =
      (n == 201 || n == 301 || n == 302 || n == 307 || n == 308)) := by
  decide

theorem redirectRegexTest_status (code : Nat) (h100 : 100 ≤ code)
    (h999 : code < 1000) :
    redirectRegexTest (natToChars code) = true ↔
      (code = 201 ∨ code = 301 ∨ code = 302 ∨ code = 307 ∨ code = 308) := by
  rw [redirect_status_chk code h999 h100]
  simp [or_assoc]

/-- C3: the pass leaves `Location` untouched (result `none`, no
assignment) when no rewrite option is truthy, or when the (three-digit)
status code is not one of 201/301/302/307/308, or when the target host
differs from the host of the parsed `Location`; and an assignment
happens only when every enabling condition holds and the hosts match. -/
theorem setRedirectHostRewrite_frame (o : RedirectOptions)
    (reqHost : Option String) (code : Nat) (loc : Option String)
    (h100 : 100 ≤ code) (h999 : code < 1000) :
    ((jsTruthyStr o.hostRewrite || o.autoRewrite ||
        jsTruthyStr o.protocolRewrite) = false →
      setRedirectHostRewrite o reqHost (some code) loc = none) ∧
    (¬ (code = 201 ∨ code = 301 ∨ code = 302 ∨ code = 307 ∨ code = 308) →
      setRedirectHostRewrite o reqHost (some code) loc = none) ∧
    (∀ t l, o.target = some t → loc = some l → t.host ≠ (urlParse l).host →
      setRedirectHostRewrite o reqHost (some code) loc = none) ∧
    (setRedirectHostRewrite o reqHost (some code) loc ≠ none →
      ((jsTruthyStr o.hostRewrite || o.autoRewrite ||
          jsTruthyStr o.protocolRewrite) = true ∧
        o.target.isSome = true ∧ jsTruthyStr loc = true ∧
        (code = 201 ∨ code = 301 ∨ code = 302 ∨ code = 307 ∨ code = 308) ∧
        ∃ t l, o.target = some t ∧ loc = some l ∧
          t.host = (urlParse l).host)) := by
  refine ⟨fun hflags => ?_, fun hstatus => ?_, fun t l ht hl hne => ?_,
    fun hres => ?_⟩
  · simp [setRedirectHostRewrite, hflags]
  · have hrx : redirectRegexTest (natToChars code) = false := by
      rw [redirect_status_chk code h999 h100]
      simp only [Bool.or_eq_false_iff, beq_eq_false_iff_ne]
      refine ⟨⟨⟨⟨?_, ?_⟩, ?_⟩, ?_⟩, ?_⟩ <;> intro hc <;> exact hstatus (by omega)
    simp [setRedirectHostRewrite, hrx]
  · by_cases hguard : ((jsTruthyStr o.hostRewrite || o.autoRewrite ||
        jsTruthyStr o.protocolRewrite) && o.target.isSome && jsTruthyStr loc
        && decide ((some code : Option Nat).getD 0 ≠ 0)
        && redirectRegexTest (natToChars ((some code : Option Nat).getD 0))) = true
    · simp only [setRedirectHostRewrite]
      rw [if_pos hguard, ht, hl]
      simp [hne]
    · simp only [setRedirectHostRewrite]
      rw [if_neg hguard]
  · by_cases hguard : ((jsTruthyStr o.hostRewrite || o.autoRewrite ||
        jsTruthyStr o.protocolRewrite) && o.target.isSome && jsTruthyStr loc
        && decide ((some code : Option Nat).getD 0 ≠ 0)
        && redirectRegexTest (natToChars ((some code : Option Nat).getD 0))) = true
    · have hg := hguard
      simp only [Bool.and_eq_true] at hg
      obtain ⟨⟨⟨⟨hflags, htarget⟩, hloc⟩, _⟩, hregex⟩ := hg
      refine ⟨hflags, htarget, hloc, ?_, ?_⟩
      · exact (redirectRegexTest_status code h100 h999).mp (by simpa using hregex)
      · cases ht : o.target with
        | none => rw [ht] at htarget; simp at htarget
        | some t =>
          cases hl : loc with
          | none => rw [hl] at hloc; simp [jsTruthyStr] at hloc
          | some l =>
            refine ⟨t, l, rfl, rfl, ?_⟩
            by_contra hneq
            apply hres
            simp only [setRedirectHostRewrite]
            rw [if_pos hguard, ht, hl]
            simp [hneq]
    · refine absurd ?_ hres
      simp only [setRedirectHostRewrite]
      rw [if_neg hguard]

/-- Witness for C3: with a rewrite option set and matching hosts a 404
is left untouched, and a mismatched host is left untouched even on a
301. -/
theorem setRedirectHostRewrite_frame_witness :
    setRedirectHostRewrite
      { hostRewrite := some "ext.example.org",
        target := some { host := some "backend" } }
      none (some 404) (some "http://backend/p") = none ∧
    setRedirectHostRewrite
      { hostRewrite := some "ext.example.org",
        target := some { host := some "other" } }
      none (some 301) (some "http://backend/p") = none := by
  have h1 := (setRedirectHostRewrite_frame
    { hostRewrite := some "ext.example.org",
      target := some { host := some "backend" } }
    none 404 (some "http://backend/p") (by decide) (by decide)).2.1
    (by omega)
  have h2 := (setRedirectHostRewrite_frame
    { hostRewrite := some "ext.example.org",
      target := some { host := some "other" } }
    none 301 (some "http://backend/p") (by decide) (by decide)).2.2.1
    { host := some "other" } "http://backend/p" rfl rfl (by decide)
  exact ⟨h1, h2⟩

end NodeHttpProxy
